import Mathlib

set_option maxRecDepth 100000

/-!
Shallow embedding of src/common/encode.c (Base64 binary-to-text codec).

Byte buffers and encoded texts are modelled as List Nat whose elements are
byte values. C strings are NUL terminated; a text is the list of its bytes
before the terminator, so a model list never stands for a string with an
embedded 0. Errors thrown with THROW / THROW_FMT are modelled with Except
over an explicit error type that records the error kind and the format
arguments of the C message.
-/

/-- Error kinds of the C error system as used by encode.c: AssertError for
the invalid-encode-type macro and FormatError for validation failures. -/
inductive ErrType where
  | assert
  | format
deriving DecidableEq

/-- Errors thrown by encode.c. Each constructor corresponds to one THROW site:
sizeNotDiv4 to the message about the size not evenly divisible by 4,
padOnlyLastTwo to the message that the pad character may only appear in the
last two positions, padLastRequired to the message that the last character
must be a pad if the second to last is, invalidChar to the invalid character
message with its position, and invalidType to the ENCODE_TYPE_INVALID_ERROR
AssertError with the rejected type tag. -/
inductive B64Error where
  | sizeNotDiv4 (size : Nat)
  | padOnlyLastTwo
  | padLastRequired
  | invalidChar (pos : Nat)
  | invalidType (encodeType : Nat)
deriving DecidableEq

/-- Decidable equality of Except results, so that concrete runs of the
embedded functions can be checked by decide. -/
instance {ε α : Type} [DecidableEq ε] [DecidableEq α] : DecidableEq (Except ε α) := fun x y =>
  match x, y with
  | .ok a, .ok b =>
      if h : a = b then .isTrue (by rw [h])
      else .isFalse (by intro hh; cases hh; exact h rfl)
  | .ok _, .error _ => .isFalse (by intro hh; cases hh)
  | .error _, .ok _ => .isFalse (by intro hh; cases hh)
  | .error a, .error b =>
      if h : a = b then .isTrue (by rw [h])
      else .isFalse (by intro hh; cases hh; exact h rfl)

/-- Error kind of each throw site: the dispatcher macro throws AssertError,
all validation failures are FormatError. -/
def B64Error.errType : B64Error → ErrType
  | .invalidType _ => .assert
  | _ => .format

/-- Modelled from the spec: the EncodeType enum of common/encode.h, whose
declaration is not under src. The spec describes a closed tag over codec
variants with Base64 as the only declared one; a C enum value is an integer,
so the tag is modelled as Nat with encodeBase64 as the first enumerator. -/
def encodeBase64 : Nat := 0

/-- Forward alphabet of encode.c line 22: the byte values of the string
constant ABCDEFGHIJKLMNOPQRSTUVWXYZabcdefghijklmnopqrstuvwxyz0123456789+/ -/
def encodeBase64Lookup : List Nat :=
  [65, 66, 67, 68, 69, 70, 71, 72, 73, 74, 75, 76, 77, 78, 79, 80,
   81, 82, 83, 84, 85, 86, 87, 88, 89, 90,
   97, 98, 99, 100, 101, 102, 103, 104, 105, 106, 107, 108, 109, 110, 111, 112,
   113, 114, 115, 116, 117, 118, 119, 120, 121, 122,
   48, 49, 50, 51, 52, 53, 54, 55, 56, 57, 43, 47]

/-- Indexing into the forward alphabet, as the C expression
encodeBase64Lookup[v]. Every index produced by the encoder is below 64, so
the default value 0 is never read. -/
def b64Char (v : Nat) : Nat := encodeBase64Lookup.getD v 0

/-- Inverse table of encode.c lines 102-120: 256 int entries mapping a byte
to its alphabet index, or -1 for bytes outside the alphabet. -/
def decodeBase64Lookup : List Int :=
  [-1, -1, -1, -1, -1, -1, -1, -1, -1, -1, -1, -1, -1, -1, -1, -1,
   -1, -1, -1, -1, -1, -1, -1, -1, -1, -1, -1, -1, -1, -1, -1, -1,
   -1, -1, -1, -1, -1, -1, -1, -1, -1, -1, -1, 62, -1, -1, -1, 63,
   52, 53, 54, 55, 56, 57, 58, 59, 60, 61, -1, -1, -1, -1, -1, -1,
   -1,  0,  1,  2,  3,  4,  5,  6,  7,  8,  9, 10, 11, 12, 13, 14,
   15, 16, 17, 18, 19, 20, 21, 22, 23, 24, 25, -1, -1, -1, -1, -1,
   -1, 26, 27, 28, 29, 30, 31, 32, 33, 34, 35, 36, 37, 38, 39, 40,
   41, 42, 43, 44, 45, 46, 47, 48, 49, 50, 51, -1, -1, -1, -1, -1,
   -1, -1, -1, -1, -1, -1, -1, -1, -1, -1, -1, -1, -1, -1, -1, -1,
   -1, -1, -1, -1, -1, -1, -1, -1, -1, -1, -1, -1, -1, -1, -1, -1,
   -1, -1, -1, -1, -1, -1, -1, -1, -1, -1, -1, -1, -1, -1, -1, -1,
   -1, -1, -1, -1, -1, -1, -1, -1, -1, -1, -1, -1, -1, -1, -1, -1,
   -1, -1, -1, -1, -1, -1, -1, -1, -1, -1, -1, -1, -1, -1, -1, -1,
   -1, -1, -1, -1, -1, -1, -1, -1, -1, -1, -1, -1, -1, -1, -1, -1,
   -1, -1, -1, -1, -1, -1, -1, -1, -1, -1, -1, -1, -1, -1, -1, -1,
   -1, -1, -1, -1, -1, -1, -1, -1, -1, -1, -1, -1, -1, -1, -1, -1]

/-- Inverse lookup decodeBase64Lookup[c] with the index taken as the byte
value 0..255 of the source character, which is what the table (populated over
all 256 entries) intends and what the C computes on ABIs where char is
unsigned. The C index expression is the cast (int)source[i]; cCharToInt below
records what that cast yields on ABIs where char is signed. -/
def b64Inv (c : Nat) : Int := decodeBase64Lookup.getD c (-1)

/-- Result of the C index expression (int)source[i] for a source byte b on
the common ABIs where plain char is signed 8-bit: bytes at or above 128 come
out negative. -/
def cCharToInt (b : Nat) : Int := if b < 128 then (b : Int) else (b : Int) - 256

/-- Inverse lookup as used inside the decode loop, where the int value is
known to be nonnegative: the loop runs only after validation, which rejects
every character whose table entry is -1, and skips the lookups of pad
characters, so toNat never changes a reachable value. -/
def b64InvU (c : Nat) : Nat := (b64Inv c).toNat

/-- Encoder of encode.c lines 24-80: processes the source three bytes at a
time, emitting four alphabet characters per group, with 61 (the pad byte of
the C literal 0x3d) filling the last group when only one or two bytes remain.
The C writes into a caller buffer and appends a NUL terminator; the model
returns the list of bytes written before the terminator. -/
def encodeToStrBase64 : List Nat → List Nat
  | [] => []
  | [b0] =>
      [b64Char (b0 >>> 2),
       b64Char ((b0 &&& 3) <<< 4),
       61, 61]
  | [b0, b1] =>
      [b64Char (b0 >>> 2),
       b64Char (((b0 &&& 3) <<< 4) ||| ((b1 &&& 0xf0) >>> 4)),
       b64Char ((b1 &&& 15) <<< 2),
       61]
  | b0 :: b1 :: b2 :: rest =>
      b64Char (b0 >>> 2)
        :: b64Char (((b0 &&& 3) <<< 4) ||| ((b1 &&& 0xf0) >>> 4))
        :: b64Char (((b1 &&& 15) <<< 2) ||| ((b2 &&& 0xc0) >>> 6))
        :: b64Char (b2 &&& 63)
        :: encodeToStrBase64 rest

/-- Size calculator of encode.c lines 83-99: the number of three byte groups,
rounded up for any remainder, times four. -/
def encodeToStrSizeBase64 (sourceSize : Nat) : Nat :=
  let encodeGroupTotal := sourceSize / 3
  let encodeGroupTotal := if sourceSize % 3 ≠ 0 then encodeGroupTotal + 1 else encodeGroupTotal
  encodeGroupTotal * 4

/-- Character scan of the validator, encode.c lines 136-155. The C loop walks
index sourceIdx over the whole string; the model walks the suffix that starts
at index i, so the head of the suffix is the character at index i. n is the
string length and lastc the character at index n - 1, which the C re-reads
from the unchanged string at each pad check. A pad byte 61 must not occur
before index n - 2, and a pad at n - 2 forces a pad at n - 1; every other
character must have a table entry other than -1. -/
def validateChars (n : Nat) (lastc : Nat) : Nat → List Nat → Except B64Error Unit
  | _, [] => .ok ()
  | i, c :: rest =>
    if c = 61 then
      if i < n - 2 then .error .padOnlyLastTwo
      else if i = n - 2 ∧ lastc ≠ 61 then .error .padLastRequired
      else validateChars n lastc (i + 1) rest
    else if b64Inv c = -1 then .error (.invalidChar i)
    else validateChars n lastc (i + 1) rest

/-- Validator of encode.c lines 122-158: reject any length not divisible by 4
(note that length 0 passes this test), then scan every character. -/
def decodeToBinValidateBase64 (s : List Nat) : Except B64Error Unit :=
  if s.length % 4 ≠ 0 then .error (.sizeNotDiv4 s.length)
  else validateChars s.length (s.getD (s.length - 1) 0) 0 s

/-- Decode loop of encode.c lines 172-194: four characters yield up to three
bytes; the second and third byte are skipped when the corresponding source
character is the pad byte 61. The casts to unsigned char are the explicit
mod 256. The C loop runs while sourceIdx < strlen(source); on validated input
the length is a multiple of 4, so the fallback arm for shorter remainders is
never reached there. -/
def decodeToBinBase64Loop : List Nat → List Nat
  | c0 :: c1 :: c2 :: c3 :: rest =>
      ((b64InvU c0 <<< 2 ||| b64InvU c1 >>> 4) % 256)
        :: ((if c2 ≠ 61 then [(b64InvU c1 <<< 4 ||| b64InvU c2 >>> 2) % 256] else [])
            ++ (if c3 ≠ 61 then [((b64InvU c2 <<< 6 &&& 0xc0) ||| b64InvU c3) % 256] else [])
            ++ decodeToBinBase64Loop rest)
  | _ => []

/-- Decoder of encode.c lines 161-197: validate first, then run the decode
loop; a validation error propagates and no byte is produced. -/
def decodeToBinBase64 (s : List Nat) : Except B64Error (List Nat) :=
  match decodeToBinValidateBase64 s with
  | .error e => .error e
  | .ok _ => .ok (decodeToBinBase64Loop s)

/-- Modulus of the 64 bit size_t used by encode.c, 2 to the 64. -/
def sizeTMod : Nat := 18446744073709551616

/-- size_t subtraction a - b for b at most the modulus: wraps around on
underflow exactly as the C expressions sourceSize - 1 and sourceSize - 2. -/
def sizeTsub (a b : Nat) : Nat := (a + (sizeTMod - b)) % sizeTMod

/-- Read of index i from a NUL terminated C string whose content bytes are s:
indices below the length read the listed byte, the index equal to the length
reads the terminator 0, and any larger index is an access outside the
allocation, modelled as none because the C behaviour is undefined there. -/
def cStrGet (s : List Nat) (i : Nat) : Option Nat :=
  if i < s.length then some (s.getD i 0)
  else if i = s.length then some 0
  else none

/-- Size calculator of encode.c lines 200-225: validate, then start from
length / 4 * 3 and subtract one for each trailing pad. The trailing reads use
the size_t indices sourceSize - 1 and sourceSize - 2; a none result records
that such a read fell outside the string, which happens exactly for the empty
string, where sourceSize - 1 wraps to the maximal size_t value. -/
def decodeToBinSizeBase64 (s : List Nat) : Except B64Error (Option Nat) :=
  match decodeToBinValidateBase64 s with
  | .error e => .error e
  | .ok _ =>
    let sourceSize := s.length
    let destinationSize := sourceSize / 4 * 3
    match cStrGet s (sizeTsub sourceSize 1) with
    | none => .ok none
    | some lastChar =>
      if lastChar = 61 then
        match cStrGet s (sizeTsub sourceSize 2) with
        | none => .ok none
        | some secondLastChar =>
          if secondLastChar = 61 then .ok (some (destinationSize - 1 - 1))
          else .ok (some (destinationSize - 1))
      else .ok (some destinationSize)

/-- Dispatcher encodeToStr of encode.c lines 230-246: route the Base64 tag to
the encoder, reject any other tag with the AssertError of the macro. -/
def encodeToStr (encodeType : Nat) (source : List Nat) : Except B64Error (List Nat) :=
  if encodeType = encodeBase64 then .ok (encodeToStrBase64 source)
  else .error (.invalidType encodeType)

/-- Dispatcher encodeToStrSize of encode.c lines 249-265. -/
def encodeToStrSize (encodeType : Nat) (sourceSize : Nat) : Except B64Error Nat :=
  if encodeType = encodeBase64 then .ok (encodeToStrSizeBase64 sourceSize)
  else .error (.invalidType encodeType)

/-- Dispatcher decodeToBin of encode.c lines 268-283. -/
def decodeToBin (encodeType : Nat) (source : List Nat) : Except B64Error (List Nat) :=
  if encodeType = encodeBase64 then decodeToBinBase64 source
  else .error (.invalidType encodeType)

/-- Dispatcher decodeToBinSize of encode.c lines 286-302. -/
def decodeToBinSize (encodeType : Nat) (source : List Nat) : Except B64Error (Option Nat) :=
  if encodeType = encodeBase64 then decodeToBinSizeBase64 source
  else .error (.invalidType encodeType)

/-- Dispatcher decodeToBinValidate of encode.c lines 329-343. -/
def decodeToBinValidate (encodeType : Nat) (source : List Nat) : Except B64Error Unit :=
  if encodeType = encodeBase64 then decodeToBinValidateBase64 source
  else .error (.invalidType encodeType)

/-- Boolean validity of encode.c lines 305-326: TRY the validator and CATCH
only FormatError, turning it into false; any other error, in particular the
AssertError for an unknown encode type, propagates to the caller. -/
def decodeToBinValid (encodeType : Nat) (source : List Nat) : Except B64Error Bool :=
  match decodeToBinValidate encodeType source with
  | .ok _ => .ok true
  | .error e => if e.errType = .format then .ok false else .error e

/-!
Helper lemmas. First the finite facts about the two tables and about the
6 bit arithmetic, established by enumeration, then the structural lemmas
about the validator scan.
-/

/-- Every alphabet character differs from the pad byte 61. -/
theorem b64Char_ne_pad : ∀ v, v < 64 → b64Char v ≠ 61 := by decide

/-- The inverse table entry of an alphabet character is its index. -/
theorem b64Inv_b64Char : ∀ v, v < 64 → b64Inv (b64Char v) = (v : Int) := by decide

/-- The inverse table entry of an alphabet character is not the sentinel. -/
theorem b64Inv_b64Char_ne : ∀ v, v < 64 → b64Inv (b64Char v) ≠ -1 := by decide

/-- Nonnegative inverse of an alphabet character, as read by the decode loop. -/
theorem b64InvU_b64Char : ∀ v, v < 64 → b64InvU (b64Char v) = v := by decide

theorem shiftr_two (x : Nat) : x >>> 2 = x / 4 := by
  rw [Nat.shiftRight_eq_div_pow]

theorem shiftr_four (x : Nat) : x >>> 4 = x / 16 := by
  rw [Nat.shiftRight_eq_div_pow]

theorem shiftl_two (x : Nat) : x <<< 2 = x * 4 := by
  rw [Nat.shiftLeft_eq]

theorem shiftl_four (x : Nat) : x <<< 4 = x * 16 := by
  rw [Nat.shiftLeft_eq]

theorem and3_shl4 : ∀ x, x < 256 → (x &&& 3) <<< 4 = x % 4 * 16 := by decide

theorem and15_shl2 : ∀ x, x < 256 → (x &&& 15) <<< 2 = x % 16 * 4 := by decide

theorem and240_shr4 : ∀ x, x < 256 → (x &&& 0xf0) >>> 4 = x / 16 := by decide

theorem and192_shr6 : ∀ x, x < 256 → (x &&& 0xc0) >>> 6 = x / 64 := by decide

theorem and63_eq : ∀ x, x < 256 → x &&& 63 = x % 64 := by decide

theorem shl6_and192 : ∀ a, a < 64 → (a <<< 6) &&& 0xc0 = a % 4 * 64 := by decide

theorem or_mul4 : ∀ a, a < 64 → ∀ b, b < 4 → a * 4 ||| b = a * 4 + b := by decide

theorem or_mul16 : ∀ a, a < 64 → ∀ b, b < 16 → a * 16 ||| b = a * 16 + b := by decide

theorem or_mul64 : ∀ a, a < 4 → ∀ b, b < 64 → a * 64 ||| b = a * 64 + b := by decide

/-- Induction along the three byte grouping of the encoder. -/
theorem chunk3Induction (P : List Nat → Prop) (h0 : P []) (h1 : ∀ x, P [x])
    (h2 : ∀ x y, P [x, y]) (h3 : ∀ x y z t, P t → P (x :: y :: z :: t)) :
    ∀ l : List Nat, P l
  | [] => h0
  | [x] => h1 x
  | [x, y] => h2 x y
  | x :: y :: z :: t => h3 x y z t (chunk3Induction P h0 h1 h2 h3 t)

/-- Arithmetic value of the second encoded character index of a full group. -/
theorem encodeArg2_eq (x y : Nat) (hx : x < 256) (hy : y < 256) :
    ((x &&& 3) <<< 4) ||| ((y &&& 0xf0) >>> 4) = x % 4 * 16 + y / 16 := by
  rw [and3_shl4 x hx, and240_shr4 y hy, or_mul16 (x % 4) (by omega) (y / 16) (by omega)]

/-- Arithmetic value of the third encoded character index of a full group. -/
theorem encodeArg3_eq (y z : Nat) (hy : y < 256) (hz : z < 256) :
    ((y &&& 15) <<< 2) ||| ((z &&& 0xc0) >>> 6) = y % 16 * 4 + z / 64 := by
  rw [and15_shl2 y hy, and192_shr6 z hz, or_mul4 (y % 16) (by omega) (z / 64) (by omega)]

/-- First decoded byte of a group recovers the first source byte. -/
theorem decodeByte0 (x v : Nat) (hx : x < 256) (hv : v < 64) (hvd : v / 16 = x % 4) :
    ((x / 4) <<< 2 ||| v >>> 4) % 256 = x := by
  rw [shiftl_two, shiftr_four, or_mul4 (x / 4) (by omega) (v / 16) (by omega)]
  omega

/-- Second decoded byte of a group recovers the second source byte. -/
theorem decodeByte1 (y v1 v2 : Nat) (hy : y < 256) (hv1 : v1 < 64)
    (hv1m : v1 % 16 = y / 16) (hv2 : v2 < 64) (hv2d : v2 / 4 = y % 16) :
    (v1 <<< 4 ||| v2 >>> 2) % 256 = y := by
  rw [shiftl_four, shiftr_two, or_mul16 v1 hv1 (v2 / 4) (by omega)]
  omega

/-- Third decoded byte of a group recovers the third source byte. -/
theorem decodeByte2 (z v2 v3 : Nat) (hz : z < 256) (hv2 : v2 < 64)
    (hv2m : v2 % 4 = z / 64) (hv3 : v3 = z % 64) :
    ((v2 <<< 6 &&& 0xc0) ||| v3) % 256 = z := by
  rw [shl6_and192 v2 hv2, hv3, or_mul64 (v2 % 4) (by omega) (z % 64) (by omega)]
  omega

/-- One scan step over an alphabet character just advances the index. -/
theorem validateChars_cons_alpha (n lastc i c : Nat) (rest : List Nat)
    (hne : c ≠ 61) (hinv : b64Inv c ≠ -1) :
    validateChars n lastc i (c :: rest) = validateChars n lastc (i + 1) rest := by
  simp only [validateChars]
  rw [if_neg hne, if_neg hinv]

/-- One scan step over a pad character in an allowed position advances the
index. -/
theorem validateChars_cons_pad (n lastc i : Nat) (rest : List Nat)
    (h1 : ¬ i < n - 2) (h2 : ¬ (i = n - 2 ∧ lastc ≠ 61)) :
    validateChars n lastc i (61 :: rest) = validateChars n lastc (i + 1) rest := by
  simp only [validateChars]
  rw [if_true, if_neg h1, if_neg h2]

/-- The encoder always produces a multiple of four characters. -/
theorem encodeToStrBase64_length_mod4 : ∀ b : List Nat, (encodeToStrBase64 b).length % 4 = 0 := by
  refine chunk3Induction _ (by simp [encodeToStrBase64]) (fun x => by simp [encodeToStrBase64])
    (fun x y => by simp [encodeToStrBase64]) ?_
  intro x y z t ih
  simp only [encodeToStrBase64, List.length_cons]
  omega

/-- Scanning the output of the encoder succeeds, from any start index i, when
n is the index just past the output and lastc is its last character. -/
theorem validateChars_encode : ∀ b : List Nat, ∀ i lastc : Nat, (∀ x ∈ b, x < 256) →
    (encodeToStrBase64 b ≠ [] →
      lastc = (encodeToStrBase64 b).getD ((encodeToStrBase64 b).length - 1) 0) →
    validateChars (i + (encodeToStrBase64 b).length) lastc i (encodeToStrBase64 b) = .ok () := by
  refine chunk3Induction _ ?_ ?_ ?_ ?_
  · intro i lastc _ _
    simp [encodeToStrBase64, validateChars]
  · intro x i lastc hb hl
    have hx : x < 256 := hb x (by simp)
    have ha1 : x >>> 2 < 64 := by rw [shiftr_two]; omega
    have ha2 : (x &&& 3) <<< 4 < 64 := by rw [and3_shl4 x hx]; omega
    have h61 : lastc = 61 := by simpa [encodeToStrBase64] using hl (by simp [encodeToStrBase64])
    simp only [encodeToStrBase64, List.length_cons, List.length_nil]
    rw [validateChars_cons_alpha _ _ _ _ _ (b64Char_ne_pad _ ha1) (b64Inv_b64Char_ne _ ha1)]
    rw [validateChars_cons_alpha _ _ _ _ _ (b64Char_ne_pad _ ha2) (b64Inv_b64Char_ne _ ha2)]
    rw [validateChars_cons_pad _ _ _ _ (by omega) (by rw [h61]; simp)]
    rw [validateChars_cons_pad _ _ _ _ (by omega) (by rw [h61]; simp)]
    simp [validateChars]
  · intro x y i lastc hb hl
    have hx : x < 256 := hb x (by simp)
    have hy : y < 256 := hb y (by simp)
    have ha1 : x >>> 2 < 64 := by rw [shiftr_two]; omega
    have ha2 : ((x &&& 3) <<< 4) ||| ((y &&& 0xf0) >>> 4) < 64 := by
      rw [encodeArg2_eq x y hx hy]; omega
    have ha3 : (y &&& 15) <<< 2 < 64 := by rw [and15_shl2 y hy]; omega
    simp only [encodeToStrBase64, List.length_cons, List.length_nil]
    rw [validateChars_cons_alpha _ _ _ _ _ (b64Char_ne_pad _ ha1) (b64Inv_b64Char_ne _ ha1)]
    rw [validateChars_cons_alpha _ _ _ _ _ (b64Char_ne_pad _ ha2) (b64Inv_b64Char_ne _ ha2)]
    rw [validateChars_cons_alpha _ _ _ _ _ (b64Char_ne_pad _ ha3) (b64Inv_b64Char_ne _ ha3)]
    rw [validateChars_cons_pad _ _ _ _ (by omega) (by rintro ⟨he, -⟩; omega)]
    simp [validateChars]
  · intro x y z t ih i lastc hb hl
    have hx : x < 256 := hb x (by simp)
    have hy : y < 256 := hb y (by simp)
    have hz : z < 256 := hb z (by simp)
    have ha1 : x >>> 2 < 64 := by rw [shiftr_two]; omega
    have ha2 : ((x &&& 3) <<< 4) ||| ((y &&& 0xf0) >>> 4) < 64 := by
      rw [encodeArg2_eq x y hx hy]; omega
    have ha3 : ((y &&& 15) <<< 2) ||| ((z &&& 0xc0) >>> 6) < 64 := by
      rw [encodeArg3_eq y z hy hz]; omega
    have ha4 : z &&& 63 < 64 := by rw [and63_eq z hz]; omega
    simp only [encodeToStrBase64, List.length_cons]
    rw [validateChars_cons_alpha _ _ _ _ _ (b64Char_ne_pad _ ha1) (b64Inv_b64Char_ne _ ha1)]
    rw [validateChars_cons_alpha _ _ _ _ _ (b64Char_ne_pad _ ha2) (b64Inv_b64Char_ne _ ha2)]
    rw [validateChars_cons_alpha _ _ _ _ _ (b64Char_ne_pad _ ha3) (b64Inv_b64Char_ne _ ha3)]
    rw [validateChars_cons_alpha _ _ _ _ _ (b64Char_ne_pad _ ha4) (b64Inv_b64Char_ne _ ha4)]
    have hn : i + ((encodeToStrBase64 t).length + 1 + 1 + 1 + 1)
        = (i + 4) + (encodeToStrBase64 t).length := by omega
    rw [hn]
    apply ih (i + 4) lastc (fun w hw => hb w (by simp [hw]))
    intro ht
    have hlen1 : 1 ≤ (encodeToStrBase64 t).length := List.length_pos.mpr ht
    have hfull := hl (by simp [encodeToStrBase64])
    rw [hfull]
    simp only [encodeToStrBase64, List.length_cons]
    have e4 : (encodeToStrBase64 t).length + 1 + 1 + 1 + 1 - 1
        = (encodeToStrBase64 t).length - 1 + 1 + 1 + 1 + 1 := by omega
    rw [e4, List.getD_cons_succ, List.getD_cons_succ, List.getD_cons_succ, List.getD_cons_succ]

/-- The decode loop inverts the encoder group by group. -/
theorem decodeToBinBase64Loop_encode : ∀ b : List Nat, (∀ x ∈ b, x < 256) →
    decodeToBinBase64Loop (encodeToStrBase64 b) = b := by
  refine chunk3Induction _ ?_ ?_ ?_ ?_
  · intro _
    rfl
  · intro x hb
    have hx : x < 256 := hb x (by simp)
    have ha1 : x >>> 2 < 64 := by rw [shiftr_two]; omega
    have ha2 : (x &&& 3) <<< 4 < 64 := by rw [and3_shl4 x hx]; omega
    simp only [encodeToStrBase64, decodeToBinBase64Loop]
    rw [b64InvU_b64Char _ ha1, b64InvU_b64Char _ ha2, shiftr_two x, and3_shl4 x hx]
    rw [decodeByte0 x (x % 4 * 16) hx (by omega) (by omega)]
    simp
  · intro x y hb
    have hx : x < 256 := hb x (by simp)
    have hy : y < 256 := hb y (by simp)
    have ha1 : x >>> 2 < 64 := by rw [shiftr_two]; omega
    have ha2 : ((x &&& 3) <<< 4) ||| ((y &&& 0xf0) >>> 4) < 64 := by
      rw [encodeArg2_eq x y hx hy]; omega
    have ha3 : (y &&& 15) <<< 2 < 64 := by rw [and15_shl2 y hy]; omega
    simp only [encodeToStrBase64, decodeToBinBase64Loop]
    rw [if_pos (b64Char_ne_pad _ ha3)]
    rw [b64InvU_b64Char _ ha1, b64InvU_b64Char _ ha2, b64InvU_b64Char _ ha3]
    rw [shiftr_two x, encodeArg2_eq x y hx hy, and15_shl2 y hy]
    rw [decodeByte0 x (x % 4 * 16 + y / 16) hx (by omega) (by omega)]
    rw [decodeByte1 y (x % 4 * 16 + y / 16) (y % 16 * 4) hy (by omega) (by omega) (by omega)
      (by omega)]
    simp
  · intro x y z t ih hb
    have hx : x < 256 := hb x (by simp)
    have hy : y < 256 := hb y (by simp)
    have hz : z < 256 := hb z (by simp)
    have ha1 : x >>> 2 < 64 := by rw [shiftr_two]; omega
    have ha2 : ((x &&& 3) <<< 4) ||| ((y &&& 0xf0) >>> 4) < 64 := by
      rw [encodeArg2_eq x y hx hy]; omega
    have ha3 : ((y &&& 15) <<< 2) ||| ((z &&& 0xc0) >>> 6) < 64 := by
      rw [encodeArg3_eq y z hy hz]; omega
    have ha4 : z &&& 63 < 64 := by rw [and63_eq z hz]; omega
    simp only [encodeToStrBase64, decodeToBinBase64Loop]
    rw [if_pos (b64Char_ne_pad _ ha3), if_pos (b64Char_ne_pad _ ha4)]
    rw [b64InvU_b64Char _ ha1, b64InvU_b64Char _ ha2, b64InvU_b64Char _ ha3,
      b64InvU_b64Char _ ha4]
    rw [shiftr_two x, encodeArg2_eq x y hx hy, encodeArg3_eq y z hy hz, and63_eq z hz]
    rw [decodeByte0 x (x % 4 * 16 + y / 16) hx (by omega) (by omega)]
    rw [decodeByte1 y (x % 4 * 16 + y / 16) (y % 16 * 4 + z / 64) hy (by omega) (by omega)
      (by omega) (by omega)]
    rw [decodeByte2 z (y % 16 * 4 + z / 64) (z % 64) hz (by omega) (by omega) rfl]
    simp [ih (fun w hw => hb w (by simp [hw]))]

/-- The output of the encoder passes validation. -/
theorem encode_validates (b : List Nat) (hb : ∀ x ∈ b, x < 256) :
    decodeToBinValidateBase64 (encodeToStrBase64 b) = .ok () := by
  unfold decodeToBinValidateBase64
  rw [if_neg (by simp [encodeToStrBase64_length_mod4 b])]
  have h := validateChars_encode b 0
    ((encodeToStrBase64 b).getD ((encodeToStrBase64 b).length - 1) 0) hb (fun _ => rfl)
  simpa using h

/-- Every error produced by the character scan is one of the three character
errors; the length error never comes from the scan. -/
theorem validateChars_error_shape : ∀ (l : List Nat) (n lastc i : Nat) (e : B64Error),
    validateChars n lastc i l = .error e →
    e = .padOnlyLastTwo ∨ e = .padLastRequired ∨ ∃ p, e = .invalidChar p := by
  intro l
  induction l with
  | nil =>
    intro n lastc i e h
    simp [validateChars] at h
  | cons c rest ih =>
    intro n lastc i e h
    simp only [validateChars] at h
    by_cases h61 : c = 61
    · rw [if_pos h61] at h
      by_cases hlt : i < n - 2
      · rw [if_pos hlt] at h
        cases h
        exact Or.inl rfl
      · rw [if_neg hlt] at h
        by_cases hsec : i = n - 2 ∧ lastc ≠ 61
        · rw [if_pos hsec] at h
          cases h
          exact Or.inr (Or.inl rfl)
        · rw [if_neg hsec] at h
          exact ih n lastc (i + 1) e h
    · rw [if_neg h61] at h
      by_cases hinv : b64Inv c = -1
      · rw [if_pos hinv] at h
        cases h
        exact Or.inr (Or.inr ⟨i, rfl⟩)
      · rw [if_neg hinv] at h
        exact ih n lastc (i + 1) e h

/-- Every error of the Base64 validator is a FormatError. -/
theorem decodeToBinValidateBase64_error_format (s : List Nat) (e : B64Error)
    (h : decodeToBinValidateBase64 s = .error e) : e.errType = .format := by
  unfold decodeToBinValidateBase64 at h
  by_cases hm : s.length % 4 ≠ 0
  · rw [if_pos hm] at h
    cases h
    rfl
  · rw [if_neg hm] at h
    rcases validateChars_error_shape s s.length (s.getD (s.length - 1) 0) 0 e h with
      h1 | h1 | ⟨p, h1⟩ <;> simp [h1, B64Error.errType]

/-- The Base64 validator never reports the length error when the length is a
multiple of four. -/
theorem decodeToBinValidateBase64_no_size_error (s : List Nat) (hm : s.length % 4 = 0)
    (k : Nat) : decodeToBinValidateBase64 s ≠ .error (.sizeNotDiv4 k) := by
  intro h
  unfold decodeToBinValidateBase64 at h
  rw [if_neg (by omega)] at h
  rcases validateChars_error_shape s s.length (s.getD (s.length - 1) 0) 0 _ h with
    h1 | h1 | ⟨p, h1⟩ <;> simp at h1

/-- A successful scan forces every pad character it visited to sit in one of
the last two positions, and a pad at the second to last position forces the
last character to be a pad. -/
theorem validateChars_ok_pad : ∀ (l : List Nat) (n lastc i : Nat),
    validateChars n lastc i l = .ok () →
    ∀ j, j < l.length → l.getD j 0 = 61 →
    ¬ (i + j < n - 2) ∧ (i + j = n - 2 → lastc = 61) := by
  intro l
  induction l with
  | nil =>
    intro n lastc i h j hj
    simp at hj
  | cons c rest ih =>
    intro n lastc i h j hj hc
    simp only [validateChars] at h
    by_cases h61 : c = 61
    · rw [if_pos h61] at h
      by_cases hlt : i < n - 2
      · rw [if_pos hlt] at h
        cases h
      · rw [if_neg hlt] at h
        by_cases hsec : i = n - 2 ∧ lastc ≠ 61
        · rw [if_pos hsec] at h
          cases h
        · rw [if_neg hsec] at h
          match j with
          | 0 =>
            refine ⟨by omega, fun he => ?_⟩
            by_contra hlast
            exact hsec ⟨by omega, hlast⟩
          | j' + 1 =>
            have := ih n lastc (i + 1) h j' (by simpa using hj)
              (by simpa [List.getD_cons_succ] using hc)
            refine ⟨by omega, fun he => this.2 (by omega)⟩
    · rw [if_neg h61] at h
      by_cases hinv : b64Inv c = -1
      · rw [if_pos hinv] at h
        cases h
      · rw [if_neg hinv] at h
        match j with
        | 0 =>
          exact absurd (by simpa using hc) h61
        | j' + 1 =>
          have := ih n lastc (i + 1) h j' (by simpa using hj)
            (by simpa [List.getD_cons_succ] using hc)
          refine ⟨by omega, fun he => this.2 (by omega)⟩

/-!
Claim theorems. Texts are written as the byte lists of their characters:
for example the text TQ== is the list [84, 81, 61, 61].
-/

/-- C1: round trip. For every byte sequence b, of any length including the
empty one, decoding the Base64 encoding of b through the dispatchers returns
exactly b: encodeToStr with the encodeBase64 tag yields the encoded text and
decodeToBin with the encodeBase64 tag maps that text back to b. -/
theorem c1_round_trip (b : List Nat) (hb : ∀ x ∈ b, x < 256) :
    encodeToStr encodeBase64 b = .ok (encodeToStrBase64 b) ∧
    decodeToBin encodeBase64 (encodeToStrBase64 b) = .ok b := by
  refine ⟨rfl, ?_⟩
  have hv := encode_validates b hb
  simp [decodeToBin, encodeBase64, decodeToBinBase64, hv, decodeToBinBase64Loop_encode b hb]

/-- Witness for C1 at the concrete input [77, 97, 110], the bytes of Man. -/
theorem c1_round_trip_witness :
    encodeToStr encodeBase64 [77, 97, 110] = .ok (encodeToStrBase64 [77, 97, 110]) ∧
    decodeToBin encodeBase64 (encodeToStrBase64 [77, 97, 110]) = .ok [77, 97, 110] :=
  c1_round_trip [77, 97, 110] (by decide)

/-- C4: encode size formula. For every source length n the dispatcher returns
4 times the ceiling of n / 3, written 4 * ((n + 2) / 3) over Nat division; in
particular the size for n = 0 is 0 and the result is always divisible by 4. -/
theorem c4_encode_size (n : Nat) :
    encodeToStrSize encodeBase64 n = .ok (4 * ((n + 2) / 3)) ∧
    encodeToStrSize encodeBase64 0 = .ok 0 ∧
    encodeToStrSizeBase64 n % 4 = 0 := by
  refine ⟨?_, by decide, ?_⟩ <;>
    simp only [encodeToStrSize, encodeToStrSizeBase64, encodeBase64, if_pos] <;>
    split <;> simp <;> omega

/-- C7: concrete vectors. Encoding the empty buffer yields the empty text;
the bytes 4D, 4D 61 and 4D 61 6E encode to the texts TQ==, TWE= and TWFu;
decoding TQ== and TWFu returns the original bytes. -/
theorem c7_vectors :
    encodeToStrBase64 [] = [] ∧
    encodeToStrBase64 [0x4D] = [84, 81, 61, 61] ∧
    encodeToStrBase64 [0x4D, 0x61] = [84, 87, 69, 61] ∧
    encodeToStrBase64 [0x4D, 0x61, 0x6E] = [84, 87, 70, 117] ∧
    decodeToBinBase64 [84, 81, 61, 61] = .ok [0x4D] ∧
    decodeToBinBase64 [84, 87, 70, 117] = .ok [0x4D, 0x61, 0x6E] := by
  decide

/-- C8: unsupported variant rejection. For every tag other than encodeBase64,
each of the five dispatcher operations fails with the AssertError of the
invalid encode type macro and produces no other result. -/
theorem c8_unsupported_variant (et : Nat) (h : et ≠ encodeBase64)
    (src : List Nat) (bin : List Nat) (n : Nat) :
    encodeToStr et bin = .error (.invalidType et) ∧
    encodeToStrSize et n = .error (.invalidType et) ∧
    decodeToBin et src = .error (.invalidType et) ∧
    decodeToBinSize et src = .error (.invalidType et) ∧
    decodeToBinValidate et src = .error (.invalidType et) := by
  refine ⟨?_, ?_, ?_, ?_, ?_⟩ <;>
    simp [encodeToStr, encodeToStrSize, decodeToBin, decodeToBinSize, decodeToBinValidate, h]

/-- Witness for C8 at the concrete tag 1 with concrete arguments. -/
theorem c8_unsupported_variant_witness :
    encodeToStr 1 [84] = .error (.invalidType 1) ∧
    encodeToStrSize 1 5 = .error (.invalidType 1) ∧
    decodeToBin 1 [] = .error (.invalidType 1) ∧
    decodeToBinSize 1 [] = .error (.invalidType 1) ∧
    decodeToBinValidate 1 [] = .error (.invalidType 1) :=
  c8_unsupported_variant 1 (by decide) [] [84] 5

/-- C2 counterexample: the claim says the boolean validity check never fails
for any variant value, but for the tag 1 it propagates the AssertError of the
dispatcher instead of returning a boolean. -/
theorem c2_counterexample : decodeToBinValid 1 [] = .error (.invalidType 1) := by
  decide

/-- C2 amended: for the Base64 variant the boolean validity check never
fails; it returns true when validation succeeds and converts every
validation failure, which is always a FormatError, into the result false. -/
theorem c2_isvalid_base64 (s : List Nat) :
    decodeToBinValid encodeBase64 s =
      if decodeToBinValidateBase64 s = .ok () then .ok true else .ok false := by
  unfold decodeToBinValid decodeToBinValidate
  rw [if_pos rfl]
  cases hv : decodeToBinValidateBase64 s with
  | ok u =>
    cases u
    simp [hv]
  | error e =>
    have hf := decodeToBinValidateBase64_error_format s e hv
    simp [hv, hf]

/-- C3 counterexample: the claim says the empty text, whose length 0 is not a
positive multiple of 4, is rejected; but 0 is evenly divisible by 4, so the
validator accepts the empty text. -/
theorem c3_counterexample : decodeToBinValidate encodeBase64 [] = .ok () := by
  decide

/-- C3 amended: validation fails with the length FormatError exactly for the
texts whose length is not divisible by 4; every text whose length is a
multiple of 4, including the empty text, passes the length rule, so the
length error never occurs for such a text. -/
theorem c3_length_rule (s : List Nat) :
    (s.length % 4 ≠ 0 →
      decodeToBinValidate encodeBase64 s = .error (.sizeNotDiv4 s.length)) ∧
    (s.length % 4 = 0 → ∀ k,
      decodeToBinValidate encodeBase64 s ≠ .error (.sizeNotDiv4 k)) := by
  constructor
  · intro hm
    simp [decodeToBinValidate, encodeBase64, decodeToBinValidateBase64, hm]
  · intro hm k
    simpa [decodeToBinValidate, encodeBase64] using
      decodeToBinValidateBase64_no_size_error s hm k

/-- Witness for C3 amended at the text TQ= of length 3 and at the empty
text. -/
theorem c3_length_rule_witness :
    decodeToBinValidate encodeBase64 [84, 81, 61] = .error (.sizeNotDiv4 3) ∧
    decodeToBinValidate encodeBase64 [] ≠ .error (.sizeNotDiv4 0) :=
  ⟨(c3_length_rule [84, 81, 61]).1 (by decide), (c3_length_rule []).2 rfl 0⟩

/-- C6: pad placement. For every text of length divisible by 4, validation
fails with a FormatError whenever a pad byte occurs at a position other than
the last two, and whenever a pad at the second to last position is not
followed by a pad at the last position. -/
theorem c6_pad_placement (s : List Nat) (hm : s.length % 4 = 0) :
    ((∃ i, i + 2 < s.length ∧ s.getD i 0 = 61) →
      ∃ e, decodeToBinValidate encodeBase64 s = .error e ∧ e.errType = .format) ∧
    ((2 ≤ s.length ∧ s.getD (s.length - 2) 0 = 61 ∧ s.getD (s.length - 1) 0 ≠ 61) →
      ∃ e, decodeToBinValidate encodeBase64 s = .error e ∧ e.errType = .format) := by
  have hbase : decodeToBinValidate encodeBase64 s = decodeToBinValidateBase64 s := by
    simp [decodeToBinValidate, encodeBase64]
  constructor
  · rintro ⟨i, hi, hc⟩
    cases hv : decodeToBinValidateBase64 s with
    | ok u =>
      exfalso
      cases u
      have hscan : validateChars s.length (s.getD (s.length - 1) 0) 0 s = .ok () := by
        unfold decodeToBinValidateBase64 at hv
        rwa [if_neg (by omega)] at hv
      have := (validateChars_ok_pad s s.length (s.getD (s.length - 1) 0) 0 hscan i
        (by omega) hc).1
      omega
    | error e =>
      exact ⟨e, by rw [hbase, hv], decodeToBinValidateBase64_error_format s e hv⟩
  · rintro ⟨hlen, hsec, hlast⟩
    cases hv : decodeToBinValidateBase64 s with
    | ok u =>
      exfalso
      cases u
      have hscan : validateChars s.length (s.getD (s.length - 1) 0) 0 s = .ok () := by
        unfold decodeToBinValidateBase64 at hv
        rwa [if_neg (by omega)] at hv
      have := (validateChars_ok_pad s s.length (s.getD (s.length - 1) 0) 0 hscan
        (s.length - 2) (by omega) hsec).2
      exact hlast (this (by omega))
    | error e =>
      exact ⟨e, by rw [hbase, hv], decodeToBinValidateBase64_error_format s e hv⟩

/-- Witness for C6 at the texts Q=QA and QQ=A from the spec. -/
theorem c6_pad_placement_witness :
    (∃ e, decodeToBinValidate encodeBase64 [81, 61, 81, 65] = .error e ∧
      e.errType = .format) ∧
    (∃ e, decodeToBinValidate encodeBase64 [81, 81, 61, 65] = .error e ∧
      e.errType = .format) :=
  ⟨(c6_pad_placement [81, 61, 81, 65] (by decide)).1 ⟨1, by decide, by decide⟩,
   (c6_pad_placement [81, 81, 61, 65] (by decide)).2 ⟨by decide, by decide, by decide⟩⟩

/-- C5 counterexample: the claim quantifies over every text that passes
validation, and the empty text passes; but there the code computes no size
from the stated formula, because the read of the last character uses the
size_t index length - 1, which wraps far past the end of the string, so the
result is undefined rather than the formula value 0. -/
theorem c5_counterexample :
    decodeToBinValidateBase64 [] = .ok () ∧
    decodeToBinSizeBase64 [] = .ok none ∧
    decodeToBinSizeBase64 [] ≠ .ok (some (([] : List Nat).length / 4 * 3)) := by
  decide

/-- C5 amended: on a text that fails validation, the size calculator fails
with exactly the same error as the validator; on every nonempty text that
passes validation it returns length / 4 * 3, minus 1 when the last character
is the pad, minus a further 1 when the second to last character is also the
pad. On the empty text, which passes validation, the trailing reads leave the
string and the result is undefined. -/
theorem c5_decode_size (s : List Nat) (hlen : s.length < sizeTMod) :
    (∀ e, decodeToBinValidate encodeBase64 s = .error e →
      decodeToBinSize encodeBase64 s = .error e) ∧
    (decodeToBinValidate encodeBase64 s = .ok () → s ≠ [] →
      decodeToBinSize encodeBase64 s = .ok (some (s.length / 4 * 3 -
        (if s.getD (s.length - 1) 0 = 61 then
          (if s.getD (s.length - 2) 0 = 61 then 2 else 1) else 0)))) := by
  have hlen' : s.length < 18446744073709551616 := hlen
  constructor
  · intro e he
    have he' : decodeToBinValidateBase64 s = .error e := by
      simpa [decodeToBinValidate, encodeBase64] using he
    simp [decodeToBinSize, encodeBase64, decodeToBinSizeBase64, he']
  · intro hok hne
    have hok' : decodeToBinValidateBase64 s = .ok () := by
      simpa [decodeToBinValidate, encodeBase64] using hok
    have hm : s.length % 4 = 0 := by
      by_contra hm
      simp [decodeToBinValidateBase64, hm] at hok'
    have hpos : s.length ≠ 0 := fun h => hne (List.eq_nil_of_length_eq_zero h)
    have hs1 : sizeTsub s.length 1 = s.length - 1 := by
      simp only [sizeTsub, sizeTMod]
      omega
    have hs2 : sizeTsub s.length 2 = s.length - 2 := by
      simp only [sizeTsub, sizeTMod]
      omega
    have hg1 : cStrGet s (sizeTsub s.length 1) = some (s.getD (s.length - 1) 0) := by
      rw [hs1]
      unfold cStrGet
      rw [if_pos (show s.length - 1 < s.length by omega)]
    have hg2 : cStrGet s (sizeTsub s.length 2) = some (s.getD (s.length - 2) 0) := by
      rw [hs2]
      unfold cStrGet
      rw [if_pos (show s.length - 2 < s.length by omega)]
    simp only [decodeToBinSize, encodeBase64, if_pos, decodeToBinSizeBase64, hok', hg1, hg2]
    by_cases hL : s.getD (s.length - 1) 0 = 61 <;>
      by_cases hS : s.getD (s.length - 2) 0 = 61 <;>
      simp only [List.getD_eq_getElem?_getD] at hL hS <;>
      simp [hL, hS] <;>
      omega

/-- Witness for C5 amended at the invalid text Q of length 1 and at the valid
text TQ==. -/
theorem c5_decode_size_witness :
    decodeToBinSize encodeBase64 [81] = .error (.sizeNotDiv4 1) ∧
    decodeToBinSize encodeBase64 [84, 81, 61, 61] = .ok (some 1) := by
  constructor
  · exact (c5_decode_size [81] (by decide)).1 (.sizeNotDiv4 1) (by decide)
  · have h := (c5_decode_size [84, 81, 61, 61] (by decide)).2 (by decide) (by decide)
    simpa using h

/-- C9: the claim says every inverse table lookup of the validator and the
decoder uses an index in 0..255, for every character byte including those at
or above 128. The inverse table decodeBase64Lookup does have 256 entries, and
the failing text of bytes 255 81 81 81 has an admissible length and a first
character that is not the pad, so the scan reaches the lookup for byte 255;
but the C index expression, the int cast of a plain char, yields -1 for byte
255 on the common ABIs where char is signed, an index outside 0..255. -/
theorem c9_lookup_index_signed :
    [255, 81, 81, 81].length % 4 = 0 ∧
    List.getD [255, 81, 81, 81] 0 0 = 255 ∧ (255 : Nat) ≠ 61 ∧
    decodeBase64Lookup.length = 256 ∧
    cCharToInt 255 = -1 ∧ ¬ (0 ≤ cCharToInt 255) := by
  decide

/-- C10: the claim says validation guarantees that the trailing reads of the
size calculator stay inside the text. The empty text passes validation, yet
the size_t index length - 1 wraps to the maximal size_t value, so the read
of the last character is outside the string and the C behaviour there is
undefined. -/
theorem c10_size_read_oob :
    decodeToBinValidate encodeBase64 [] = .ok () ∧
    sizeTsub ([] : List Nat).length 1 = sizeTMod - 1 ∧
    cStrGet [] (sizeTsub ([] : List Nat).length 1) = none ∧
    decodeToBinSizeBase64 [] = .ok none := by
  decide
